import Mathlib

/-!
Shallow embedding of `wiki_category_tree.py` (Danysan1/wiki-category-tree):
the crawler + cache subsystem (`query_wikimedia_api`, `fetch_members`,
`fetch_content`, `split_in_batches`, `explore_category`, `scrape`).

External Python libraries are modelled as follows:
* `hashlib.sha256(...).hexdigest()` is abstracted as a function
  `h : String → String` carried in the environment; the code only ever
  applies it to the canonical serialization, and collision-freeness is an
  explicit injectivity hypothesis where a theorem needs it.
* `json.dumps(params, sort_keys=True)` is implemented concretely
  (`canonicalJson`) because its key-sorting semantics is load-bearing for
  the cache key; `json.loads` / `resp.json()` is abstracted as a function
  `parse : String → Option Json` (`none` models a raised JSONDecodeError).
* `requests.get(url=endpoint, params=params).text` is abstracted as
  `net : String → Params → String` (endpoint, parameters ↦ response body).
* The filesystem cache (`.cache/<key>.json` legacy tier and
  `.cache/<key[:2]>/<key>.json` sharded tier) is modelled as two partial
  maps from the hex key to the stored file body.

Python `dict` parameter mappings are modelled as association lists
(`Params`); a real `dict` never has duplicate keys, which appears as a
`Nodup` hypothesis where relevant.
-/

namespace WikiCategoryTree

/-- Error conditions a run of the Python code can raise.  `apiError` is the
`Exception("Error in response")` raise; `decodeError` a `JSONDecodeError`
from `json.loads`/`resp.json()`; `keyError`/`indexError`/`typeError` the
corresponding Python lookup errors; `outOfFuel` is a modelling artifact of
the fuelled recursion (the Python recursion has no fuel). -/
inductive Err where
  | apiError
  | decodeError
  | keyError
  | indexError
  | typeError
  | outOfFuel
deriving DecidableEq

/-- A JSON-serializable parameter value as used in the source: the request
parameter dicts contain strings and one int (`cmlimit` = 500). -/
inductive PVal where
  | s (v : String)
  | i (n : Int)
deriving DecidableEq

/-- A request parameter mapping: a Python `dict` of str keys. -/
abbrev Params := List (String × PVal)

/-- Parsed JSON values (the result of `json.loads`). -/
inductive Json where
  | null
  | bool (b : Bool)
  | num (n : Int)
  | str (s : String)
  | arr (xs : List Json)
  | obj (fields : List (String × Json))

/-! ### Python string comparison (code-point lexicographic)

Python compares strings by Unicode code points, lexicographically, and a
proper prefix sorts first.  `sorted`/`list.sort` only ever invoke the
strict comparison `<`. -/

/-- Lexicographic strict comparison of code-point lists. -/
def lexLtChars : List Char → List Char → Bool
  | [], [] => false
  | [], _ :: _ => true
  | _ :: _, [] => false
  | a :: as, b :: bs =>
    if a.toNat < b.toNat then true
    else if b.toNat < a.toNat then false
    else lexLtChars as bs

/-- Python `a < b` on strings: lexicographic on code points. -/
def pyStrLt (a b : String) : Prop := lexLtChars a.data b.data = true

instance : DecidableRel pyStrLt := fun a b =>
  inferInstanceAs (Decidable (lexLtChars a.data b.data = true))

/-- Python `a <= b` on strings (as the reflexive closure of `<`, which is
all a sort ever distinguishes). -/
def pyStrLe (a b : String) : Prop := pyStrLt a b ∨ a = b

instance : DecidableRel pyStrLe := fun a b =>
  inferInstanceAs (Decidable (pyStrLt a b ∨ a = b))

/-- Python `sorted` / `list.sort` on a list of strings.  Any correct sort
for a total order is extensionally unique on strings (equal strings are
identical), so a stable insertion sort models Timsort exactly. -/
def pySortStrings (names : List String) : List String :=
  List.insertionSort pyStrLe names

/-- The order `json.dumps(..., sort_keys=True)` sorts the items of a dict
by: compare the keys (Python tuple comparison on `(key, value)` items
never reaches the value for a dict, whose keys are unique). -/
def keyLe (a b : String × PVal) : Prop := pyStrLe a.1 b.1

instance : DecidableRel keyLe := fun a b => by
  unfold keyLe; infer_instance

/-- The items of the parameter dict in the order `sort_keys=True` emits
them. -/
def sortItems (p : Params) : Params :=
  List.insertionSort keyLe p

/-! ### `json.dumps` (default separators, `ensure_ascii=True`) -/

/-- Lower-case hex digit. -/
def hexDigit (k : Nat) : Char :=
  Char.ofNat (if k < 10 then 48 + k else 87 + (k % 16))

/-- Four-digit lower-case hex rendering used by `\uXXXX` escapes. -/
def hex4 (n : Nat) : String :=
  String.mk [hexDigit (n / 4096 % 16), hexDigit (n / 256 % 16),
             hexDigit (n / 16 % 16), hexDigit (n % 16)]

/-- The escape `json.dumps` (with the default `ensure_ascii=True`) applies
to one character of a string: `\"`, `\\`, the short control escapes,
`\u00XX` for other control characters, and `\uXXXX` (with surrogate pairs
above the BMP) for non-ASCII. -/
def jsonEscapeChar (c : Char) : List Char :=
  if c = '"' then ['\\', '"']
  else if c = '\\' then ['\\', '\\']
  else if c = '\n' then ['\\', 'n']
  else if c = '\t' then ['\\', 't']
  else if c = '\r' then ['\\', 'r']
  else if c.val = 8 then ['\\', 'b']
  else if c.val = 12 then ['\\', 'f']
  else if c.val < 32 then '\\' :: 'u' :: (hex4 c.toNat).data
  else if c.val < 127 then [c]
  else if c.val < 65536 then '\\' :: 'u' :: (hex4 c.toNat).data
  else
    ('\\' :: 'u' :: (hex4 (55296 + (c.toNat - 65536) / 1024)).data) ++
    ('\\' :: 'u' :: (hex4 (56320 + (c.toNat - 65536) % 1024)).data)

/-- `json.dumps` rendering of a string literal (without the quotes). -/
def jsonEscape (s : String) : String :=
  ⟨s.data.flatMap jsonEscapeChar⟩

/-- `json.dumps` rendering of one parameter value. -/
def renderPVal : PVal → String
  | .s v => "\"" ++ jsonEscape v ++ "\""
  | .i n => toString n

/-- `json.dumps(params, sort_keys=True)` for a flat str-keyed dict, with
the default separators `", "` and `": "`: the canonical serialization the
cache key is computed from (`wiki_category_tree.py` line 21). -/
def canonicalJson (p : Params) : String :=
  "\x7b" ++
    String.intercalate ", "
      ((sortItems p).map fun kv => "\"" ++ jsonEscape kv.1 ++ "\": " ++ renderPVal kv.2) ++
  "\x7d"

/-! ### The environment: the external collaborators of the core -/

/-- The external collaborators, abstracted (see the file header):
`h` = sha256 hexdigest, `parse` = `json.loads`, `net` = HTTP GET body
text, `endpoint` = the API endpoint URL. -/
structure Env where
  h : String → String
  parse : String → Option Json
  net : String → Params → String
  endpoint : String

/-- `params_hash` (line 21): the hex digest of the canonical, key-sorted
JSON serialization of the parameters. -/
def cacheKey (env : Env) (params : Params) : String :=
  env.h (canonicalJson params)

/-! ### `split_in_batches` (lines 112-118)

```
l = len(iterable)
for ndx in range(0, l, n):
    yield iterable[ndx:min(ndx + n, l)]
```
For `n ≥ 1` this yields the slices `[0:n], [n:2n], ...`; the recursion
below is driven by a fuel bounded by the list length so that it is
structural (`range(0, l, 0)` would raise in Python; the model returns `[]`
for `n = 0`, a case no caller exercises — the only call site uses 50). -/

/-- Fuelled worker for `split_in_batches`; `fuel ≥ l.length` always holds
at call sites. -/
def splitGo {α : Type} (n : Nat) : Nat → List α → List (List α)
  | _, [] => []
  | 0, _ :: _ => []
  | fuel + 1, a :: as => (a :: as).take n :: splitGo n fuel ((a :: as).drop n)

/-- `split_in_batches(iterable, n)` as a list of batches. -/
def split_in_batches {α : Type} (l : List α) (n : Nat) : List (List α) :=
  match n with
  | 0 => []
  | n + 1 => splitGo (n + 1) l.length l

/-! ### Python-level helpers on `Json` values -/

/-- Python `x[k]` for a string key `k`: key lookup on a dict
(`KeyError` when absent), `TypeError` on any other value. -/
def Json.getKey : Json → String → Except Err Json
  | .obj fields, k =>
    match fields.find? (fun kv => kv.1 == k) with
    | some kv => .ok kv.2
    | none => .error .keyError
  | _, _ => .error .typeError

/-- Python `x[i]` for an int index: list indexing (`IndexError` when out
of range), `TypeError` on any non-list value. -/
def Json.getIdx : Json → Nat → Except Err Json
  | .arr xs, i =>
    match xs.get? i with
    | some x => .ok x
    | none => .error .indexError
  | _, _ => .error .typeError

/-- A JSON value that must be a list to be iterated / sliced
(`TypeError` otherwise). -/
def Json.asArr : Json → Except Err (List Json)
  | .arr xs => .ok xs
  | _ => .error .typeError

/-- A JSON value that must be a string (`TypeError`/`AttributeError`
otherwise). -/
def Json.asStr : Json → Except Err String
  | .str s => .ok s
  | _ => .error .typeError

/-- Whether a dict has a key (Boolean, only meaningful on objects; the
call sites guard the object case). -/
def Json.hasKeyB : Json → String → Bool
  | .obj fields, k => fields.any (fun kv => kv.1 == k)
  | _, _ => false

/-- `as` is a prefix of `bs` (character lists). -/
def isPrefixChars : List Char → List Char → Bool
  | [], _ => true
  | _ :: _, [] => false
  | a :: as, b :: bs => a == b && isPrefixChars as bs

/-- `needle` occurs as a contiguous run in `hay`. -/
def hasSubChars (needle : List Char) : List Char → Bool
  | [] => isPrefixChars needle []
  | b :: bs => isPrefixChars needle (b :: bs) || hasSubChars needle bs

/-- Python `s.startswith(pre)`. -/
def pyStartsWith (s pre : String) : Bool :=
  isPrefixChars pre.data s.data

/-- Python `"error" in out` (line 43): key membership on a dict, element
membership on a list, substring test on a string, `TypeError` on other
values (including the `None` that `resp.json()` yields for a `null`
body). -/
def pyHasErrorKey : Json → Except Err Bool
  | .obj fields => .ok (fields.any (fun kv => kv.1 == "error"))
  | .arr xs =>
    .ok (xs.any (fun x => match x with
      | .str s => s == "error"
      | _ => false))
  | .str s => .ok (hasSubChars "error".data s.data)
  | _ => .error .typeError

/-- Python `str(x)` for the scalar JSON values (the only case the source
exercises is `str(member["pageid"])` with an int page id; the container
renderings are abridged and unused). -/
def pyStr : Json → String
  | .num n => toString n
  | .str s => s
  | .bool b => if b then "True" else "False"
  | .null => "None"
  | .arr _ => "[...]"
  | .obj _ => "\x7b...\x7d"

/-! ### The on-disk cache (`CacheStore`)

Two tiers keyed by the hex digest: the legacy flat layout
`.cache/<key>.json` and the sharded layout `.cache/<key[:2]>/<key>.json`.
A directory is a finite map from file name to file body; the shard
subdirectory structure only affects path strings, so each tier is one map
from key to body. -/

structure CacheState where
  legacy : String → Option String
  sharded : String → Option String

/-- The fetch-and-store path of `query_wikimedia_api` (lines 39-48): GET
the endpoint, parse the body, fail with the `Exception` raise if the
parsed body contains a top-level `"error"` indicator (and cache nothing),
otherwise write the raw body `resp.text` to the sharded path and return
the parsed value. -/
def queryFetch (env : Env) (params : Params) (key : String) (cs : CacheState) :
    Except Err Json × CacheState :=
  let body := env.net env.endpoint params
  match env.parse body with
  | none => (.error .decodeError, cs)
  | some out =>
    match pyHasErrorKey out with
    | .error e => (.error e, cs)
    | .ok true => (.error .apiError, cs)
    | .ok false =>
      (.ok out, { cs with sharded := fun k => if k = key then some body else cs.sharded k })

/-- Lines 29-30: if a legacy flat file exists for the key, `rename` moves
it to the sharded path (overwriting any sharded entry of the same key,
POSIX rename semantics). -/
def migrateLegacy (key : String) (cs : CacheState) : CacheState :=
  match cs.legacy key with
  | some body =>
    { legacy := fun k => if k = key then none else cs.legacy k,
      sharded := fun k => if k = key then some body else cs.sharded k }
  | none => cs

/-- `query_wikimedia_api(params, api_endpoint)` (lines 17-52): compute the
key, migrate a legacy entry, read the sharded entry if present
(`json.loads` failure is fatal; a parsed `null` is indistinguishable from
a miss because of the `out is None` test), and on miss fetch from the
network.  `mkdir` only touches directory structure and is not modelled. -/
def query_wikimedia_api (env : Env) (params : Params) (cs : CacheState) :
    Except Err Json × CacheState :=
  let key := cacheKey env params
  let cs1 : CacheState := migrateLegacy key cs
  match cs1.sharded key with
  | some body =>
    match env.parse body with
    | none => (.error .decodeError, cs1)
    | some out =>
      match out with
      | .null => queryFetch env params key cs1
      | _ => (.ok out, cs1)
  | none => queryFetch env params key cs1

/-! ### The crawler state and the two fetch wrappers -/

/-- `MAX_SUBCATEGORIES` (line 15). -/
def MAX_SUBCATEGORIES : Int := 500

/-- The parameter dict built by `fetch_members` (lines 62-70), in source
order. -/
def memberParams (category : String) : Params :=
  [("action", .s "query"), ("format", .s "json"), ("formatversion", .s "2"),
   ("list", .s "categorymembers"), ("cmlimit", .i MAX_SUBCATEGORIES),
   ("cmtitle", .s category)]

/-- The parameter dict built by `fetch_content` (lines 101-109) from the
already-sorted names, in source order. -/
def contentParams (sortedNames : List String) : Params :=
  [("action", .s "query"), ("prop", .s "revisions"), ("format", .s "json"),
   ("formatversion", .s "1"), ("rvslots", .s "*"),
   ("rvprop", .s "timestamp|user|comment|content"),
   ("titles", .s (String.intercalate "|" sortedNames))]

/-- The produced directed graph (`networkx.DiGraph`): nodes carry an
optional `content` attribute; duplicate `add_node` upserts the attribute,
duplicate `add_edge` is a no-op, and `add_edge` inserts missing endpoint
nodes without attributes. -/
structure Graph where
  nodes : List (String × Option Json)
  edges : List (String × String)

/-- `g.add_node(name, content=content)`. -/
def addNode (name : String) (content : Json) (g : Graph) : Graph :=
  if g.nodes.any (fun kv => kv.1 == name) then
    { g with nodes := g.nodes.map (fun kv => if kv.1 == name then (kv.1, some content) else kv) }
  else
    { g with nodes := g.nodes ++ [(name, some content)] }

/-- Insert a node with no attributes if absent (what `add_edge` does to a
missing endpoint). -/
def ensureNode (name : String) (g : Graph) : Graph :=
  if g.nodes.any (fun kv => kv.1 == name) then g
  else { g with nodes := g.nodes ++ [(name, none)] }

/-- `g.add_edge(u, v)`. -/
def addEdge (u v : String) (g : Graph) : Graph :=
  let g := ensureNode v (ensureNode u g)
  if (u, v) ∈ g.edges then g else { g with edges := g.edges ++ [(u, v)] }

/-- The state a crawl threads: the disk cache, the graph under
construction, the module-level `explored_categories` set (line 120), and
two observers — the list of categories `fetch_members` was called for
(one entry per call, in call order) and the number of truncation reports
(the `!!!!! Too many subcategories !!!!!` print, line 73). -/
structure CrawlState where
  cache : CacheState
  graph : Graph
  explored : List String
  fetchLog : List String
  truncCount : Nat

/-- `explored_categories.add(category)` (Python set insert). -/
def insertExplored (c : String) (l : List String) : List String :=
  if c ∈ l then l else l ++ [c]

/-- `fetch_members(category, api_endpoint)` (lines 54-74): build the
params, query, test `out["batchcomplete"] is False and "continue" in out`
(the subscript is evaluated unconditionally, so a missing
`"batchcomplete"` key raises `KeyError`; the membership test only runs
when the first operand is the literal `False`), count the truncation
report, and return `out["query"]["categorymembers"]`. -/
def fetch_members (env : Env) (category : String) (st : CrawlState) :
    Except Err Json × CrawlState :=
  match query_wikimedia_api env (memberParams category) st.cache with
  | (.error e, cs) =>
    (.error e, { st with cache := cs, fetchLog := st.fetchLog ++ [category] })
  | (.ok out, cs) =>
    let st := { st with cache := cs, fetchLog := st.fetchLog ++ [category] }
    match out.getKey "batchcomplete" with
    | .error e => (.error e, st)
    | .ok bc =>
      let truncated := (match bc with | .bool false => true | _ => false)
        && out.hasKeyB "continue"
      let st := if truncated then { st with truncCount := st.truncCount + 1 } else st
      match out.getKey "query" with
      | .error e => (.error e, st)
      | .ok qv =>
        match qv.getKey "categorymembers" with
        | .error e => (.error e, st)
        | .ok cm => (.ok cm, st)

/-- `fetch_content(names, api_endpoint)` (lines 93-110): `names.sort()`,
build the params with the pipe-joined sorted names, query, and return
`out["query"]["pages"]`. -/
def fetch_content (env : Env) (names : List String) (st : CrawlState) :
    Except Err Json × CrawlState :=
  let sorted := pySortStrings names
  match query_wikimedia_api env (contentParams sorted) st.cache with
  | (.error e, cs) => (.error e, { st with cache := cs })
  | (.ok out, cs) =>
    let st := { st with cache := cs }
    match out.getKey "query" with
    | .error e => (.error e, st)
    | .ok qv =>
      match qv.getKey "pages" with
      | .error e => (.error e, st)
      | .ok pages => (.ok pages, st)

/-- The member-title list comprehension
`[member["title"] for member in batch]` (line 132) followed by the string
checks Python performs when `fetch_content` sorts and joins the names. -/
def memberTitles (batch : List Json) : Except Err (List String) := do
  let ts ← batch.mapM (fun m => m.getKey "title")
  ts.mapM Json.asStr

/-- Lines 135-139 for one member: look up its content
`member_contents[str(member["pageid"])]["revisions"][0]["slots"]["main"]`
and return it with the member's title. -/
def memberContent (contents m : Json) : Except Err (String × Json) := do
  let pid ← m.getKey "pageid"
  let mc ← contents.getKey (pyStr pid)
  let revs ← mc.getKey "revisions"
  let r0 ← revs.getIdx 0
  let slots ← r0.getKey "slots"
  let mainC ← slots.getKey "main"
  let t ← m.getKey "title"
  let title ← t.asStr
  return (title, mainC)

/-- The control points of `explore_category` (lines 122-141): enter a
category, run the batch loop, run the member loop of one batch.  The
split makes the recursion structural in a single fuel. -/
inductive Phase where
  | cat (category : String)
  | batches (category : String) (bs : List (List Json))
  | members (category : String) (contents : Json) (ms : List Json)

/-- The recursive depth-first exploration (lines 122-141), written with
its call stack explicit (the head of the `List Phase` worklist is the
innermost active control point, exactly the Python call stack) and driven
by fuel (the Python recursion has none; every theorem quantifies over or
supplies enough fuel).  One step processes the head:

* `.cat`: the entry check `if category in explored_categories: return`
  (pop the frame), else `fetch_members` and push the batch loop over
  `split_in_batches(members, 50)`.
* `.batches`: done when no batches remain; else for the head batch fetch
  the member contents
  (`fetch_content([member["title"] for member in batch], ...)`), then
  `explored_categories.add(category)` — the add happens inside the batch
  loop, after the first content fetch and before any recursion — and push
  the batch's member loop in front of the remaining batches.
* `.members`: done when no members remain; else for the head member
  attach the content (`g.add_node(member["title"], content=...)`), add
  the edge `g.add_edge(category, member["title"])`, and push the
  recursive call in front of the remaining members when the title starts
  with `"Category:"`.

An error abandons the whole stack, exactly like the uncaught Python
exception unwinding every frame. -/
def run (env : Env) : Nat → List Phase → CrawlState → Except Err Unit × CrawlState
  | _, [], st => (.ok (), st)
  | 0, _ :: _, st => (.error .outOfFuel, st)
  | fuel + 1, t :: stack, st =>
    match t with
    | .cat category =>
      if category ∈ st.explored then run env fuel stack st
      else
        match fetch_members env category st with
        | (.error e, st) => (.error e, st)
        | (.ok membersJson, st) =>
          match membersJson.asArr with
          | .error e => (.error e, st)
          | .ok members =>
            run env fuel (.batches category (split_in_batches members 50) :: stack) st
    | .batches category bs =>
      match bs with
      | [] => run env fuel stack st
      | batch :: rest =>
        match memberTitles batch with
        | .error e => (.error e, st)
        | .ok titles =>
          match fetch_content env titles st with
          | (.error e, st) => (.error e, st)
          | (.ok contents, st) =>
            let st := { st with explored := insertExplored category st.explored }
            run env fuel (.members category contents batch :: .batches category rest :: stack) st
    | .members category contents ms =>
      match ms with
      | [] => run env fuel stack st
      | m :: rest =>
        match memberContent contents m with
        | .error e => (.error e, st)
        | .ok tc =>
          let st := { st with graph := addEdge category tc.1 (addNode tc.1 tc.2 st.graph) }
          if pyStartsWith tc.1 "Category:" then
            run env fuel (.cat tc.1 :: .members category contents rest :: stack) st
          else
            run env fuel (.members category contents rest :: stack) st

/-- `explore_category(category, g, api_endpoint)` (lines 122-141). -/
def explore_category (env : Env) (fuel : Nat) (category : String) (st : CrawlState) :
    Except Err Unit × CrawlState :=
  run env fuel [.cat category] st

/-- `scrape(root_category, api_endpoint)` (lines 143-149): build a fresh
`DiGraph`, explore from the root, and hand the graph to the caller.  The
module-level `explored_categories` set and the disk cache predate the
call and are passed in (`explored0`, `cache0`); an uncaught error means
the caller receives no graph. -/
def scrape (env : Env) (fuel : Nat) (root_category : String)
    (explored0 : List String) (cache0 : CacheState) :
    Except Err Graph × CrawlState :=
  let st0 : CrawlState := ⟨cache0, ⟨[], []⟩, explored0, [], 0⟩
  match explore_category env fuel root_category st0 with
  | (.ok _, st) => (.ok st.graph, st)
  | (.error e, st) => (.error e, st)

/-! ### Result projections used by the theorems -/

/-- The node names of a crawl result (`[]` when the crawl raised). -/
def resultNodeNames : Except Err Graph → List String
  | .ok g => g.nodes.map Prod.fst
  | .error _ => []

/-- The edge list of a crawl result (`[]` when the crawl raised). -/
def resultEdges : Except Err Graph → List (String × String)
  | .ok g => g.edges
  | .error _ => []

/-- The member list a given category's membership response parses to:
`parse(GET(memberParams c))["query"]["categorymembers"]` as a list, when
all of that succeeds.  Under a cache consistent with the network this is
what a successful `fetch_members` on `c` returns. -/
def apiMembers (env : Env) (c : String) : Option (List Json) :=
  match env.parse (env.net env.endpoint (memberParams c)) with
  | none => none
  | some j =>
    match j.getKey "query" with
    | .error _ => none
    | .ok q =>
      match q.getKey "categorymembers" with
      | .error _ => none
      | .ok cm =>
        match cm.asArr with
        | .error _ => none
        | .ok ms => some ms

/-! ### Mocked deterministic APIs

Each mock uses the identity as the abstract hex digest (trivially
injective) and a `parse` table mapping opaque response-body tokens to
their parsed JSON values.  The network is a lookup table: either keyed on
the canonical serialization of the request parameters (then it is
trivially insensitive to parameter insertion order, which the witnesses
of the general theorems need), or dispatching on the `cmtitle`/`titles`
parameter (cheaper to evaluate, used by the purely computational
theorems). -/

/-- An empty on-disk cache. -/
def emptyCache : CacheState := ⟨fun _ => none, fun _ => none⟩

/-- Look up a string-valued parameter in a parameter list. -/
def lookupStr (k : String) (p : Params) : Option String :=
  match p.find? (fun kv => kv.1 == k) with
  | some (_, .s v) => some v
  | _ => none

/-- Build a mock environment whose network dispatches on the `cmtitle`
parameter (membership queries) or the `titles` parameter (content
queries). -/
def mkFastEnv (memTable : String → String) (contentTable : String → String)
    (parseTable : String → Option Json) : Env :=
  ⟨fun s => s, parseTable,
   fun _ p =>
     match lookupStr "cmtitle" p, lookupStr "titles" p with
     | some c, _ => memTable c
     | none, some t => contentTable t
     | _, _ => "bad",
   "https://commons.wikimedia.org/w/api.php"⟩

/-- A `list=categorymembers` response body. -/
def memResp (complete : Bool) (extra : List (String × Json)) (ms : List Json) : Json :=
  .obj ([("batchcomplete", .bool complete)] ++ extra ++
        [("query", .obj [("categorymembers", .arr ms)])])

/-- The `revisions` entry of one page of a `prop=revisions` response. -/
def revContent (c : String) : Json :=
  .obj [("revisions", .arr [.obj [("slots", .obj [("main", .str c)])]])]

/-- A `prop=revisions` response body with the given pages. -/
def pagesResp (ps : List (String × Json)) : Json :=
  .obj [("query", .obj [("pages", .obj ps)])]

/-- Build a mock environment from a network table (canonical params
serialization ↦ body token) and a parse table (body token ↦ JSON);
unknown bodies fail to parse. -/
def mkMockEnv (netTable : String → String) (parseTable : String → Option Json) : Env :=
  ⟨fun s => s, parseTable, fun _ p => netTable (canonicalJson p),
   "https://commons.wikimedia.org/w/api.php"⟩

/-! #### Mock 1 (`env6`): the spec's end-to-end example.
Root `Category:A` has members `Category:B` and `file1`; `Category:B` has
member `file2`. -/

def env6 : Env :=
  mkFastEnv
    (fun c =>
      if c = "Category:A" then "m6A"
      else if c = "Category:B" then "m6B"
      else "bad")
    (fun t =>
      if t = "Category:B|file1" then "c6A"
      else if t = "file2" then "c6B"
      else "bad")
    (fun b =>
      if b = "m6A" then
        some (memResp true [] [.obj [("pageid", .num 1), ("title", .str "Category:B")],
                               .obj [("pageid", .num 2), ("title", .str "file1")]])
      else if b = "m6B" then
        some (memResp true [] [.obj [("pageid", .num 3), ("title", .str "file2")]])
      else if b = "c6A" then
        some (pagesResp [("1", revContent "cB"), ("2", revContent "c1")])
      else if b = "c6B" then
        some (pagesResp [("3", revContent "c2")])
      else none)

/-! #### Mock 2 (`envD`): a diamond through a category with no members.
`Category:A` has members `Category:B` and `Category:C`; `Category:B` has
no members; `Category:C` has member `Category:B`. -/

def envD : Env :=
  mkFastEnv
    (fun c =>
      if c = "Category:A" then "mdA"
      else if c = "Category:B" then "mdB"
      else if c = "Category:C" then "mdC"
      else "bad")
    (fun t =>
      if t = "Category:B|Category:C" then "cdA"
      else if t = "Category:B" then "cdC"
      else "bad")
    (fun b =>
      if b = "mdA" then
        some (memResp true [] [.obj [("pageid", .num 1), ("title", .str "Category:B")],
                               .obj [("pageid", .num 2), ("title", .str "Category:C")]])
      else if b = "mdB" then some (memResp true [] [])
      else if b = "mdC" then
        some (memResp true [] [.obj [("pageid", .num 1), ("title", .str "Category:B")]])
      else if b = "cdA" then
        some (pagesResp [("1", revContent "x"), ("2", revContent "y")])
      else if b = "cdC" then
        some (pagesResp [("1", revContent "x")])
      else none)

/-! #### Mock 3 (`envS`): the API lists `Category:A` as a member of
itself (self-categorization, which MediaWiki permits). -/

def envS : Env :=
  mkFastEnv
    (fun c => if c = "Category:A" then "msA" else "bad")
    (fun t => if t = "Category:A" then "csA" else "bad")
    (fun b =>
      if b = "msA" then
        some (memResp true [] [.obj [("pageid", .num 1), ("title", .str "Category:A")]])
      else if b = "csA" then some (pagesResp [("1", revContent "s")])
      else none)

/-! #### Mock 4 (`envT`): a truncated membership response.
`Category:T`'s response has `batchcomplete: false` and a `continue`
marker, with the partial member list `[fileX]`. -/

def envT : Env :=
  mkMockEnv
    (fun s =>
      if s = canonicalJson (memberParams "Category:T") then "mtT"
      else if s = canonicalJson (contentParams ["fileX"]) then "ctT"
      else "bad")
    (fun b =>
      if b = "mtT" then
        some (memResp false [("continue", .obj [("cmcontinue", .str "page|X|1")])]
                      [.obj [("pageid", .num 1), ("title", .str "fileX")]])
      else if b = "ctT" then some (pagesResp [("1", revContent "t")])
      else none)

/-! #### Mock 5 (`envE`): the API answers the root membership query with
an error body. -/

def envE : Env :=
  mkMockEnv (fun _ => "meE")
    (fun b =>
      if b = "meE" then
        some (.obj [("error", .obj [("code", .str "maxlag")])])
      else none)

/-! #### Mock 6 (`envN`): a membership response with no `batchcomplete`
key (and no error indicator). -/

def envN : Env :=
  mkMockEnv (fun _ => "mnN")
    (fun b =>
      if b = "mnN" then
        some (.obj [("query", .obj [("categorymembers", .arr [])])])
      else none)

/-- The strict key order underlying `sortItems`. -/
def keyLt (a b : String × PVal) : Prop := pyStrLt a.1 b.1

/-! ### Predicates the correctness statements quantify over -/

/-- One cache tier is consistent with the network: every entry stored
under the cache key of some parameter mapping is the body the network
returns for that mapping. -/
def TierOk (env : Env) (tier : String → Option String) : Prop :=
  ∀ p : Params, tier (cacheKey env p) = none ∨
    tier (cacheKey env p) = some (env.net env.endpoint p)

/-- Both cache tiers are consistent with the network. -/
def Consistent (env : Env) (cs : CacheState) : Prop :=
  TierOk env cs.legacy ∧ TierOk env cs.sharded

/-- The network treats requests with the same parameter set (any
insertion order) identically — an HTTP server does not see dict insertion
order. -/
def netRespects (env : Env) : Prop :=
  ∀ p q : Params, canonicalJson p = canonicalJson q →
    env.net env.endpoint p = env.net env.endpoint q

/-- `t` is the title the crawler reads off the member object `m`. -/
def memberTitleIs (m : Json) (t : String) : Prop :=
  ∃ j, m.getKey "title" = .ok j ∧ j.asStr = .ok t

/-- No category's membership response lists a member whose title is the
category itself. -/
def noSelfMembership (env : Env) : Prop :=
  ∀ c ms, apiMembers env c = some ms →
    ∀ m ∈ ms, ∀ t, memberTitleIs m t → t ≠ c

/-- The graph has no edge from a node to itself. -/
def NoSelfLoop (g : Graph) : Prop := ∀ x, (x, x) ∉ g.edges

/-- The invariant behind "no category is membership-fetched twice": the
name `n` has been fetched at most once, and if it has been fetched it is
already in the explored set — except in the one window where its batch
loop sits at the head of the stack with batches still to process (the
explored-set add happens inside the first batch iteration). -/
def stackPhiOK (n : String) (stack : List Phase) (st : CrawlState) : Prop :=
  st.fetchLog.count n ≤ 1 ∧
  (st.fetchLog.count n = 1 → n ∈ st.explored ∨
    match stack with
    | .batches c (_ :: _) :: _ => c = n
    | _ => False)

/-- Every pending batch/member frame in the stack only carries members
whose titles differ from the frame's category. -/
def stackTitlesOK (stack : List Phase) : Prop :=
  ∀ t ∈ stack,
    match t with
    | .cat _ => True
    | .batches c bs => ∀ b ∈ bs, ∀ m ∈ b, ∀ s, memberTitleIs m s → s ≠ c
    | .members c _ ms => ∀ m ∈ ms, ∀ s, memberTitleIs m s → s ≠ c

/-!
# Verification

Everything below is proof development about the embedding above.
-/

/-! ### `split_in_batches` -/

theorem splitGo_fuel_irrel {α : Type} (n : Nat) :
    ∀ fuel₁ fuel₂ (l : List α), l.length ≤ fuel₁ → l.length ≤ fuel₂ →
      splitGo (n + 1) fuel₁ l = splitGo (n + 1) fuel₂ l := by
  intro fuel₁
  induction fuel₁ with
  | zero =>
    intro fuel₂ l h₁ _
    match l, fuel₂ with
    | [], 0 => rfl
    | [], _ + 1 => rfl
    | a :: as, _ => simp at h₁
  | succ f ih =>
    intro fuel₂ l h₁ h₂
    match l, fuel₂ with
    | [], 0 => rfl
    | [], _ + 1 => rfl
    | a :: as, 0 => simp at h₂
    | a :: as, f₂ + 1 =>
      simp only [splitGo]
      congr 1
      apply ih
      · simpa using Nat.le_trans (Nat.sub_le _ _) (Nat.le_of_succ_le_succ h₁)
      · simpa using Nat.le_trans (Nat.sub_le _ _) (Nat.le_of_succ_le_succ h₂)

/-- `split_in_batches` of an empty sequence yields no batches. -/
theorem split_nil {α : Type} (n : Nat) : split_in_batches ([] : List α) n = [] := by
  cases n <;> rfl

/-- The defining recursion of `split_in_batches` for a positive batch
size and a non-empty input: the first `n` elements form a batch and the
rest is split recursively. -/
theorem split_cons {α : Type} (a : α) (as : List α) (n : Nat) :
    split_in_batches (a :: as) (n + 1) =
      (a :: as).take (n + 1) :: split_in_batches ((a :: as).drop (n + 1)) (n + 1) := by
  simp only [split_in_batches, List.length_cons, splitGo]
  congr 1
  apply splitGo_fuel_irrel
  · simp
  · simp

/-! ### Order lemmas for the code-point comparison -/

theorem Char.toNat_inj' {a b : Char} (h : a.toNat = b.toNat) : a = b := by
  unfold Char.toNat at h
  exact Char.ext (UInt32.ext h)

theorem lexLtChars_irrefl : ∀ a : List Char, lexLtChars a a = false := by
  intro a
  induction a with
  | nil => rfl
  | cons x xs ih => simp [lexLtChars, ih]

theorem lexLtChars_asymm :
    ∀ a b : List Char, lexLtChars a b = true → lexLtChars b a = false := by
  intro a
  induction a with
  | nil =>
    intro b h
    cases b with
    | nil => simp [lexLtChars] at h
    | cons y ys => rfl
  | cons x xs ih =>
    intro b h
    cases b with
    | nil => simp [lexLtChars] at h
    | cons y ys =>
      by_cases hxy : x.toNat < y.toNat
      · have : ¬ y.toNat < x.toNat := Nat.lt_asymm hxy
        simp [lexLtChars, hxy, this]
      · by_cases hyx : y.toNat < x.toNat
        · simp [lexLtChars, hxy, hyx] at h
        · simp only [lexLtChars, if_neg hxy, if_neg hyx] at h
          simp [lexLtChars, hxy, hyx, ih ys h]

theorem lexLtChars_trichotomy :
    ∀ a b : List Char, lexLtChars a b = false → lexLtChars b a = false → a = b := by
  intro a
  induction a with
  | nil =>
    intro b h _
    cases b with
    | nil => rfl
    | cons y ys => simp [lexLtChars] at h
  | cons x xs ih =>
    intro b h h'
    cases b with
    | nil => simp [lexLtChars] at h'
    | cons y ys =>
      by_cases hxy : x.toNat < y.toNat
      · simp [lexLtChars, hxy] at h
      · by_cases hyx : y.toNat < x.toNat
        · simp [lexLtChars, hyx] at h'
        · have hx : x = y := Char.toNat_inj' (Nat.le_antisymm (Nat.le_of_not_lt hyx) (Nat.le_of_not_lt hxy))
          simp only [lexLtChars, if_neg hxy, if_neg hyx] at h
          simp only [lexLtChars, if_neg hyx, if_neg hxy] at h'
          rw [hx, ih ys h h']

theorem lexLtChars_trans :
    ∀ a b c : List Char, lexLtChars a b = true → lexLtChars b c = true →
      lexLtChars a c = true := by
  intro a
  induction a with
  | nil =>
    intro b c hab hbc
    cases b with
    | nil => simp [lexLtChars] at hab
    | cons y ys =>
      cases c with
      | nil => simp [lexLtChars] at hbc
      | cons z zs => rfl
  | cons x xs ih =>
    intro b c hab hbc
    cases b with
    | nil => simp [lexLtChars] at hab
    | cons y ys =>
      cases c with
      | nil => simp [lexLtChars] at hbc
      | cons z zs =>
        by_cases hxy : x.toNat < y.toNat
        · by_cases hyz : y.toNat < z.toNat
          · simp [lexLtChars, Nat.lt_trans hxy hyz]
          · by_cases hzy : z.toNat < y.toNat
            · simp [lexLtChars, hyz, hzy] at hbc
            · have : y = z := Char.toNat_inj'
                (Nat.le_antisymm (Nat.le_of_not_lt hzy) (Nat.le_of_not_lt hyz))
              subst this
              simp [lexLtChars, hxy]
        · by_cases hyx : y.toNat < x.toNat
          · simp [lexLtChars, hxy, hyx] at hab
          · have hx : x = y := Char.toNat_inj'
              (Nat.le_antisymm (Nat.le_of_not_lt hyx) (Nat.le_of_not_lt hxy))
            subst hx
            simp only [lexLtChars, if_neg hxy, if_neg hyx] at hab
            by_cases hyz : x.toNat < z.toNat
            · simp [lexLtChars, hyz]
            · by_cases hzy : z.toNat < x.toNat
              · simp [lexLtChars, hyz, hzy] at hbc
              · simp only [lexLtChars, if_neg hyz, if_neg hzy] at hbc ⊢
                exact ih ys zs hab hbc

theorem stringDataEq {a b : String} (h : a.data = b.data) : a = b := by
  cases a; cases b; exact congrArg String.mk (by simpa using h)

theorem pyStrLt_asymm {a b : String} (h : pyStrLt a b) : ¬ pyStrLt b a := by
  unfold pyStrLt at *
  simp [lexLtChars_asymm _ _ h]

theorem pyStrLt_trans {a b c : String} (h : pyStrLt a b) (h' : pyStrLt b c) :
    pyStrLt a c :=
  lexLtChars_trans _ _ _ h h'

theorem pyStrLt_total (a b : String) : pyStrLt a b ∨ pyStrLt b a ∨ a = b := by
  unfold pyStrLt
  cases hab : lexLtChars a.data b.data with
  | true => exact Or.inl rfl
  | false =>
    cases hba : lexLtChars b.data a.data with
    | true => exact Or.inr (Or.inl rfl)
    | false => exact Or.inr (Or.inr (stringDataEq (lexLtChars_trichotomy _ _ hab hba)))

instance : IsTrans (String × PVal) keyLe := by
  constructor
  intro a b c hab hbc
  rcases hab with hab | hab
  · rcases hbc with hbc | hbc
    · exact Or.inl (pyStrLt_trans hab hbc)
    · exact Or.inl (hbc ▸ hab)
  · rcases hbc with hbc | hbc
    · exact Or.inl (hab ▸ hbc)
    · exact Or.inr (hab.trans hbc)

instance : IsTotal (String × PVal) keyLe := by
  constructor
  intro a b
  rcases pyStrLt_total a.1 b.1 with h | h | h
  · exact Or.inl (Or.inl h)
  · exact Or.inr (Or.inl h)
  · exact Or.inl (Or.inr h)

instance : IsAntisymm (String × PVal) keyLt := by
  constructor
  intro a b h h'
  exact absurd h' (pyStrLt_asymm h)

theorem sortItems_sorted_strict (p : Params) (hkeys : (p.map Prod.fst).Nodup) :
    List.Sorted keyLt (sortItems p) := by
  have hsorted : List.Sorted keyLe (sortItems p) := List.sorted_insertionSort keyLe p
  have hperm : (sortItems p).Perm p := List.perm_insertionSort keyLe p
  have hnodup : ((sortItems p).map Prod.fst).Nodup :=
    hkeys.perm ((hperm.map Prod.fst).symm)
  have hne : (sortItems p).Pairwise (fun a b : String × PVal => a.1 ≠ b.1) :=
    (List.pairwise_map.mp hnodup)
  refine (hsorted.and hne).imp ?_
  rintro a b ⟨hle, hne⟩
  rcases hle with h | h
  · exact h
  · exact absurd h hne

/-- Sorting the items of two parameter dicts with the same key/value
pairs (in any insertion order) gives the same item list. -/
theorem sortItems_eq_of_perm (p₁ p₂ : Params) (hperm : p₁.Perm p₂)
    (hkeys : (p₁.map Prod.fst).Nodup) : sortItems p₁ = sortItems p₂ := by
  have h₁ : (sortItems p₁).Perm (sortItems p₂) :=
    ((List.perm_insertionSort keyLe p₁).trans hperm).trans
      (List.perm_insertionSort keyLe p₂).symm
  exact List.eq_of_perm_of_sorted h₁ (sortItems_sorted_strict p₁ hkeys)
    (sortItems_sorted_strict p₂ ((hkeys.perm (hperm.map Prod.fst))))

/-! ### Claim C1: cache-key determinism -/

/-- C1.  Cache-key determinism: for every two parameter mappings with
identical key/value pairs in any insertion order (a Python dict never has
duplicate keys, hence the `Nodup` hypothesis), the cache key — the hex
digest of the canonical, key-sorted JSON serialization — is the same. -/
theorem cacheKey_deterministic (env : Env) (p₁ p₂ : Params)
    (hperm : p₁.Perm p₂) (hkeys : (p₁.map Prod.fst).Nodup) :
    cacheKey env p₁ = cacheKey env p₂ := by
  unfold cacheKey canonicalJson
  rw [sortItems_eq_of_perm p₁ p₂ hperm hkeys]

/-- Witness for C1 at a concrete pair of mappings that differ only in
insertion order. -/
theorem cacheKey_deterministic_witness :
    cacheKey envE [("b", .s "2"), ("a", .s "1")] =
      cacheKey envE [("a", .s "1"), ("b", .s "2")] :=
  cacheKey_deterministic envE [("b", .s "2"), ("a", .s "1")]
    [("a", .s "1"), ("b", .s "2")] (by decide) (by decide)

/-! ### Claim C3: batch splitting -/

theorem split_flatten_aux {α : Type} (n : Nat) :
    ∀ (k : Nat) (l : List α), l.length ≤ k →
      (split_in_batches l (n + 1)).flatten = l := by
  intro k
  induction k with
  | zero =>
    intro l h
    match l with
    | [] => rfl
    | a :: as => simp at h
  | succ k ih =>
    intro l h
    match l with
    | [] => rfl
    | a :: as =>
      rw [split_cons]
      simp only [List.flatten_cons]
      rw [ih ((a :: as).drop (n + 1)) (by simp at h ⊢; omega)]
      exact List.take_append_drop _ _

theorem split_length_aux {α : Type} (n : Nat) :
    ∀ (k : Nat) (l : List α), l.length ≤ k →
      (split_in_batches l (n + 1)).length = (l.length + n) / (n + 1) := by
  intro k
  induction k with
  | zero =>
    intro l h
    match l with
    | [] => simpa [split_in_batches, splitGo] using (Nat.div_eq_of_lt (by omega)).symm
    | a :: as => simp at h
  | succ k ih =>
    intro l h
    match l with
    | [] => simpa [split_in_batches, splitGo] using (Nat.div_eq_of_lt (by omega)).symm
    | a :: as =>
      rw [split_cons]
      simp only [List.length_cons]
      rw [ih ((a :: as).drop (n + 1)) (by simp at h ⊢; omega)]
      have hnum : as.length + 1 + n = as.length + (n + 1) := by omega
      rw [hnum, Nat.add_div_right _ (Nat.succ_pos n)]
      simp only [List.length_drop, List.length_cons]
      rcases le_or_lt n as.length with hle | hlt
      · have : as.length + 1 - (n + 1) + n = as.length := by omega
        rw [this]
      · have h0 : as.length + 1 - (n + 1) = 0 := by omega
        rw [h0, Nat.zero_add, Nat.div_eq_of_lt (by omega), Nat.div_eq_of_lt (by omega)]

theorem split_sizes_aux {α : Type} (n : Nat) :
    ∀ (k : Nat) (l : List α), l.length ≤ k →
      ∀ b ∈ split_in_batches l (n + 1), 0 < b.length ∧ b.length ≤ n + 1 := by
  intro k
  induction k with
  | zero =>
    intro l h b hb
    match l with
    | [] => simp [split_in_batches, splitGo] at hb
    | a :: as => simp at h
  | succ k ih =>
    intro l h b hb
    match l with
    | [] => simp [split_in_batches, splitGo] at hb
    | a :: as =>
      rw [split_cons] at hb
      rcases (List.mem_cons.mp hb) with hb | hb
      · subst hb
        constructor
        · simp [List.length_take]
        · simp [List.length_take]
      · exact ih ((a :: as).drop (n + 1)) (by simp at h ⊢; omega) b hb

theorem split_ne_nil {α : Type} (l : List α) (n : Nat) (h : l ≠ []) :
    split_in_batches l (n + 1) ≠ [] := by
  match l, h with
  | a :: as, _ =>
    rw [split_cons]
    simp

theorem split_dropLast_aux {α : Type} (n : Nat) :
    ∀ (k : Nat) (l : List α), l.length ≤ k →
      ∀ b ∈ (split_in_batches l (n + 1)).dropLast, b.length = n + 1 := by
  intro k
  induction k with
  | zero =>
    intro l h b hb
    match l with
    | [] => simp [split_in_batches, splitGo] at hb
    | a :: as => simp at h
  | succ k ih =>
    intro l h b hb
    match l with
    | [] => simp [split_in_batches, splitGo] at hb
    | a :: as =>
      rw [split_cons] at hb
      by_cases hd : (a :: as).drop (n + 1) = []
      · rw [hd] at hb
        simp [split_in_batches, splitGo] at hb
      · rw [List.dropLast_cons_of_ne_nil (split_ne_nil _ n hd)] at hb
        rcases (List.mem_cons.mp hb) with hb | hb
        · subst hb
          have hlen : ¬ (a :: as).length ≤ n + 1 := by
            intro hc
            exact hd (List.drop_eq_nil_of_le hc)
          simp only [List.length_cons] at hlen
          simp only [List.length_take, List.length_cons]
          omega
        · exact ih ((a :: as).drop (n + 1)) (by simp at h ⊢; omega) b hb

/-- C3.  Batch splitting: for a positive batch size `n`,
`split_in_batches(items, n)` yields `⌈L/n⌉` batches; concatenating them in
order reproduces `items` exactly (so the batches are consecutive,
non-overlapping and in the original order); every batch except possibly
the last has size exactly `n`; and every batch is non-empty of size at
most `n`.  The result is a plain function of `items` and `n`. -/
theorem split_in_batches_spec {α : Type} (items : List α) (n : Nat) (hn : 0 < n) :
    (split_in_batches items n).length = (items.length + n - 1) / n ∧
    (split_in_batches items n).flatten = items ∧
    (∀ b ∈ (split_in_batches items n).dropLast, b.length = n) ∧
    (∀ b ∈ split_in_batches items n, 0 < b.length ∧ b.length ≤ n) := by
  obtain ⟨m, rfl⟩ : ∃ m, n = m + 1 := ⟨n - 1, by omega⟩
  refine ⟨?_, ?_, ?_, ?_⟩
  · have : items.length + (m + 1) - 1 = items.length + m := by omega
    rw [this]
    exact split_length_aux m items.length items le_rfl
  · exact split_flatten_aux m items.length items le_rfl
  · exact split_dropLast_aux m items.length items le_rfl
  · exact split_sizes_aux m items.length items le_rfl

/-- Witness for C3 at a concrete list and batch size. -/
theorem split_in_batches_spec_witness :
    0 < 2 ∧
    (split_in_batches [10, 20, 30, 40, 50] 2).length = (5 + 2 - 1) / 2 ∧
    (split_in_batches [10, 20, 30, 40, 50] 2).flatten = [10, 20, 30, 40, 50] :=
  ⟨by decide, (split_in_batches_spec [10, 20, 30, 40, 50] 2 (by decide)).1,
    (split_in_batches_spec [10, 20, 30, 40, 50] 2 (by decide)).2.1⟩

/-! ### Claim C10: the explored set is shared across crawl invocations -/

/-- C10.  The module-level `explored_categories` set survives between
`scrape` calls (nothing resets it): a `scrape` whose root is already in
the set short-circuits at the entry check and returns a graph with no
nodes and no edges, leaving every piece of state untouched. -/
theorem scrape_explored_root_empty (env : Env) (fuel : Nat) (c : String)
    (explored0 : List String) (cache0 : CacheState) (hc : c ∈ explored0) :
    scrape env (fuel + 1) c explored0 cache0 =
      (.ok ⟨[], []⟩, ⟨cache0, ⟨[], []⟩, explored0, [], 0⟩) := by
  simp [scrape, explore_category, run, hc]

/-- Witness for C10: a category explored by an earlier crawl makes a
later `scrape` of it return the empty graph. -/
theorem scrape_explored_root_empty_witness :
    scrape env6 10 "Category:A" ["Category:A"] emptyCache =
      (.ok ⟨[], []⟩, ⟨emptyCache, ⟨[], []⟩, ["Category:A"], [], 0⟩) :=
  scrape_explored_root_empty env6 9 "Category:A" ["Category:A"] emptyCache (by decide)

/-! ### `query_wikimedia_api` on a cache miss -/

/-- On a miss in both tiers, with a well-formed error-free response, the
query fetches, caches the raw body under its key and returns the parsed
value. -/
theorem query_miss (env : Env) (p : Params) (cs : CacheState) (j : Json)
    (hleg : cs.legacy (cacheKey env p) = none)
    (hsh : cs.sharded (cacheKey env p) = none)
    (hparse : env.parse (env.net env.endpoint p) = some j)
    (herr : pyHasErrorKey j = .ok false) :
    query_wikimedia_api env p cs =
      (.ok j,
        { cs with sharded := fun k =>
            if k = cacheKey env p then some (env.net env.endpoint p) else cs.sharded k }) := by
  unfold query_wikimedia_api migrateLegacy queryFetch
  simp only [hleg, hsh, hparse, herr]

/-- On a miss in both tiers, a response whose parsed body contains the
error indicator makes the query raise and leaves the cache untouched. -/
theorem query_miss_error (env : Env) (p : Params) (cs : CacheState) (j : Json)
    (hleg : cs.legacy (cacheKey env p) = none)
    (hsh : cs.sharded (cacheKey env p) = none)
    (hparse : env.parse (env.net env.endpoint p) = some j)
    (herr : pyHasErrorKey j = .ok true) :
    query_wikimedia_api env p cs = (.error .apiError, cs) := by
  unfold query_wikimedia_api migrateLegacy queryFetch
  simp only [hleg, hsh, hparse, herr]

/-! ### Claim C4: legacy cache migration -/

/-- C4.  Legacy cache migration: a key with an entry at the legacy flat
path, once read, no longer has a legacy file (the entry was moved by
`rename`, not copied), the sharded path holds the same body, and a second
read returns that same body with the cache in exactly the same state (no
second migration).  `json.loads` succeeding on the stored body with a
non-`null` value is the integrity assumption the code itself relies on
(it only ever caches bodies it has parsed, and never caches `null`). -/
theorem legacy_migration (env : Env) (p : Params) (cs : CacheState)
    (body : String) (j : Json)
    (hleg : cs.legacy (cacheKey env p) = some body)
    (hparse : env.parse body = some j) (hnull : j ≠ .null) :
    (query_wikimedia_api env p cs).1 = .ok j ∧
    (query_wikimedia_api env p cs).2.legacy (cacheKey env p) = none ∧
    (query_wikimedia_api env p cs).2.sharded (cacheKey env p) = some body ∧
    query_wikimedia_api env p (query_wikimedia_api env p cs).2 =
      (.ok j, (query_wikimedia_api env p cs).2) := by
  have hq : query_wikimedia_api env p cs =
      (.ok j,
        { legacy := fun k => if k = cacheKey env p then none else cs.legacy k,
          sharded := fun k => if k = cacheKey env p then some body else cs.sharded k }) := by
    unfold query_wikimedia_api migrateLegacy
    simp only [hleg, ↓reduceIte, hparse]
  refine ⟨by rw [hq], by rw [hq]; simp, by rw [hq]; simp, ?_⟩
  rw [hq]
  unfold query_wikimedia_api migrateLegacy
  simp only [↓reduceIte, hparse]

/-- Witness for C4 at a concrete legacy entry. -/
theorem legacy_migration_witness :
    ((query_wikimedia_api envE [("a", .s "1")]
        ⟨fun k => if k = cacheKey envE [("a", .s "1")] then some "meE" else none,
         fun _ => none⟩).1 = .ok (.obj [("error", .obj [("code", .str "maxlag")])])) ∧
    ((query_wikimedia_api envE [("a", .s "1")]
        ⟨fun k => if k = cacheKey envE [("a", .s "1")] then some "meE" else none,
         fun _ => none⟩).2.legacy (cacheKey envE [("a", .s "1")]) = none) :=
  let cs : CacheState :=
    ⟨fun k => if k = cacheKey envE [("a", .s "1")] then some "meE" else none,
     fun _ => none⟩
  let H := legacy_migration envE [("a", .s "1")] cs "meE"
    (.obj [("error", .obj [("code", .str "maxlag")])])
    (by decide) rfl (by simp)
  ⟨H.1, H.2.1⟩

/-! ### Claim C5: error responses are fatal and not cached -/

/-- C5.  An error response is fatal and not cached: a query whose fetched
body parses to a value containing the top-level `"error"` indicator
raises the `Exception` (`apiError`) leaving the cache in exactly the
state it was in (no entry written); and a crawl whose root membership
query gets such a response aborts with that error — the caller receives
no graph. -/
theorem error_response_fatal_not_cached :
    (∀ (env : Env) (p : Params) (cs : CacheState) (j : Json),
      cs.legacy (cacheKey env p) = none →
      cs.sharded (cacheKey env p) = none →
      env.parse (env.net env.endpoint p) = some j →
      pyHasErrorKey j = .ok true →
      query_wikimedia_api env p cs = (.error .apiError, cs)) ∧
    (∀ (env : Env) (fuel : Nat) (root : String)
       (explored0 : List String) (cache0 : CacheState) (j : Json),
      root ∉ explored0 →
      cache0.legacy (cacheKey env (memberParams root)) = none →
      cache0.sharded (cacheKey env (memberParams root)) = none →
      env.parse (env.net env.endpoint (memberParams root)) = some j →
      pyHasErrorKey j = .ok true →
      (scrape env (fuel + 1) root explored0 cache0).1 = .error .apiError) := by
  constructor
  · exact fun env p cs j hleg hsh hparse herr =>
      query_miss_error env p cs j hleg hsh hparse herr
  · intro env fuel root explored0 cache0 j hroot hleg hsh hparse herr
    unfold scrape explore_category run fetch_members
    simp only [if_neg hroot,
      query_miss_error env (memberParams root) cache0 j hleg hsh hparse herr]

/-- Witness for C5: a mocked API answering the root membership query with
an error body aborts the crawl with `apiError` and caches nothing. -/
theorem error_response_fatal_not_cached_witness :
    query_wikimedia_api envE (memberParams "Category:E") emptyCache =
      (.error .apiError, emptyCache) ∧
    (scrape envE 10 "Category:E" [] emptyCache).1 = .error .apiError :=
  ⟨error_response_fatal_not_cached.1 envE (memberParams "Category:E") emptyCache
      (.obj [("error", .obj [("code", .str "maxlag")])]) rfl rfl rfl rfl,
    error_response_fatal_not_cached.2 envE 9 "Category:E" [] emptyCache
      (.obj [("error", .obj [("code", .str "maxlag")])])
      (by simp) rfl rfl rfl rfl⟩

/-! ### Claim C9: the truncation check reads `batchcomplete` unconditionally -/

/-- C9.  `fetch_members` evaluates `out["batchcomplete"]` unconditionally
(line 72), so a membership response whose parsed body is a valid,
error-free dict that merely lacks the top-level `"batchcomplete"` key
makes `fetch_members` raise `KeyError` instead of returning the member
list. -/
theorem fetch_members_missing_batchcomplete (env : Env) (c : String)
    (st : CrawlState) (j : Json)
    (hleg : st.cache.legacy (cacheKey env (memberParams c)) = none)
    (hsh : st.cache.sharded (cacheKey env (memberParams c)) = none)
    (hparse : env.parse (env.net env.endpoint (memberParams c)) = some j)
    (herr : pyHasErrorKey j = .ok false)
    (hbc : j.getKey "batchcomplete" = .error .keyError) :
    (fetch_members env c st).1 = .error .keyError := by
  unfold fetch_members
  simp only [query_miss env (memberParams c) st.cache j hleg hsh hparse herr, hbc]

/-- Witness for C9: a response with `query.categorymembers` but no
`batchcomplete` key makes `fetch_members` raise `KeyError`. -/
theorem fetch_members_missing_batchcomplete_witness :
    (fetch_members envN "Category:N" ⟨emptyCache, ⟨[], []⟩, [], [], 0⟩).1 =
      .error .keyError :=
  fetch_members_missing_batchcomplete envN "Category:N"
    ⟨emptyCache, ⟨[], []⟩, [], [], 0⟩
    (.obj [("query", .obj [("categorymembers", .arr [])])]) rfl rfl rfl rfl rfl

/-! ### Claim C8: truncation is non-fatal -/

set_option maxRecDepth 40000 in
/-- C8.  Truncation is non-fatal: a membership response with
`batchcomplete: false` and a `continue` marker makes `fetch_members`
report the truncation (the counter increments), not raise — it returns
the partial member list; and (concretely, on the mocked API `envT` whose
root response is truncated) the crawl succeeds and the resulting graph
contains the partial member set. -/
theorem truncation_nonfatal :
    (∀ (env : Env) (c : String) (st : CrawlState) (j qv : Json) (ms : List Json),
      st.cache.legacy (cacheKey env (memberParams c)) = none →
      st.cache.sharded (cacheKey env (memberParams c)) = none →
      env.parse (env.net env.endpoint (memberParams c)) = some j →
      pyHasErrorKey j = .ok false →
      j.getKey "batchcomplete" = .ok (.bool false) →
      j.hasKeyB "continue" = true →
      j.getKey "query" = .ok qv →
      qv.getKey "categorymembers" = .ok (.arr ms) →
      (fetch_members env c st).1 = .ok (.arr ms) ∧
      (fetch_members env c st).2.truncCount = st.truncCount + 1) ∧
    ((scrape envT 40 "Category:T" [] emptyCache).1.isOk = true ∧
      1 ≤ (scrape envT 40 "Category:T" [] emptyCache).2.truncCount ∧
      "fileX" ∈ resultNodeNames (scrape envT 40 "Category:T" [] emptyCache).1) := by
  constructor
  · intro env c st j qv ms hleg hsh hparse herr hbc hcont hq hcm
    unfold fetch_members
    simp [query_miss env (memberParams c) st.cache j hleg hsh hparse herr,
      hbc, hcont, hq, hcm]
  · exact ⟨by decide, by decide, by decide⟩

/-- Witness for C8 at the concrete truncated response of `envT`. -/
theorem truncation_nonfatal_witness :
    (fetch_members envT "Category:T" ⟨emptyCache, ⟨[], []⟩, [], [], 0⟩).1 =
      .ok (.arr [.obj [("pageid", .num 1), ("title", .str "fileX")]]) ∧
    (fetch_members envT "Category:T" ⟨emptyCache, ⟨[], []⟩, [], [], 0⟩).2.truncCount = 0 + 1 :=
  truncation_nonfatal.1 envT "Category:T" ⟨emptyCache, ⟨[], []⟩, [], [], 0⟩
    (memResp false [("continue", .obj [("cmcontinue", .str "page|X|1")])]
      [.obj [("pageid", .num 1), ("title", .str "fileX")]])
    (.obj [("categorymembers", .arr [.obj [("pageid", .num 1), ("title", .str "fileX")]])])
    [.obj [("pageid", .num 1), ("title", .str "fileX")]]
    rfl rfl rfl rfl rfl rfl rfl rfl

/-! ### Cache consistency through `query_wikimedia_api`

With a collision-free digest (`sha256` in reality) and a network that
does not see parameter insertion order, every query preserves consistency
of the cache with the network, and a successful query returns exactly the
parse of the network's response body for its parameters. -/

theorem TierOk_insert (env : Env) (HInj : Function.Injective env.h)
    (HNet : netRespects env) (tier : String → Option String)
    (ht : TierOk env tier) (p₀ : Params) (v : Option String)
    (hv : v = none ∨ v = some (env.net env.endpoint p₀)) :
    TierOk env (fun k => if k = cacheKey env p₀ then v else tier k) := by
  intro q
  by_cases hk : cacheKey env q = cacheKey env p₀
  · have hcanon : canonicalJson q = canonicalJson p₀ := HInj hk
    have hnet : env.net env.endpoint q = env.net env.endpoint p₀ :=
      HNet q p₀ hcanon
    rcases hv with hv | hv
    · exact Or.inl (by simp [hk, hv])
    · exact Or.inr (by simp [hk, hv, hnet])
  · simpa [hk] using ht q

theorem queryFetch_consistent (env : Env) (HInj : Function.Injective env.h)
    (HNet : netRespects env) (p : Params) (cs : CacheState)
    (hc : Consistent env cs) :
    Consistent env (queryFetch env p (cacheKey env p) cs).2 ∧
    (∀ j, (queryFetch env p (cacheKey env p) cs).1 = .ok j →
      env.parse (env.net env.endpoint p) = some j) := by
  simp only [queryFetch]
  split
  · exact ⟨hc, by intro j hj; simp at hj⟩
  · rename_i out hp
    split
    · exact ⟨hc, by intro j hj; simp at hj⟩
    · exact ⟨hc, by intro j hj; simp at hj⟩
    · refine ⟨⟨hc.1, ?_⟩, ?_⟩
      · exact TierOk_insert env HInj HNet cs.sharded hc.2 p
          (some (env.net env.endpoint p)) (Or.inr rfl)
      · intro j hj
        simp only [Except.ok.injEq] at hj
        rw [← hj]
        exact hp

theorem migrateLegacy_consistent (env : Env) (HInj : Function.Injective env.h)
    (HNet : netRespects env) (p : Params) (cs : CacheState)
    (hc : Consistent env cs) :
    Consistent env (migrateLegacy (cacheKey env p) cs) := by
  unfold migrateLegacy
  rcases hl : cs.legacy (cacheKey env p) with _ | body
  · exact hc
  · have hbody : body = env.net env.endpoint p := by
      rcases hc.1 p with h | h
      · rw [hl] at h; cases h
      · rw [hl] at h; exact Option.some.inj h
    refine ⟨?_, ?_⟩
    · exact TierOk_insert env HInj HNet cs.legacy hc.1 p none (Or.inl rfl)
    · exact TierOk_insert env HInj HNet cs.sharded hc.2 p (some body)
        (Or.inr (by rw [hbody]))

theorem query_consistent (env : Env) (HInj : Function.Injective env.h)
    (HNet : netRespects env) (p : Params) (cs : CacheState)
    (hc : Consistent env cs) :
    Consistent env (query_wikimedia_api env p cs).2 ∧
    (∀ j, (query_wikimedia_api env p cs).1 = .ok j →
      env.parse (env.net env.endpoint p) = some j) := by
  have hc1 : Consistent env (migrateLegacy (cacheKey env p) cs) :=
    migrateLegacy_consistent env HInj HNet p cs hc
  rcases hs : (migrateLegacy (cacheKey env p) cs).sharded (cacheKey env p) with _ | body
  · have hq : query_wikimedia_api env p cs =
        queryFetch env p (cacheKey env p) (migrateLegacy (cacheKey env p) cs) := by
      unfold query_wikimedia_api
      simp only [hs]
    rw [hq]
    exact queryFetch_consistent env HInj HNet p _ hc1
  · have hbody : body = env.net env.endpoint p := by
      rcases hc1.2 p with h | h
      · rw [hs] at h; cases h
      · rw [hs] at h; exact Option.some.inj h
    subst hbody
    rcases hpo : env.parse (env.net env.endpoint p) with _ | out
    · have hq : query_wikimedia_api env p cs =
          (.error .decodeError, migrateLegacy (cacheKey env p) cs) := by
        unfold query_wikimedia_api
        simp only [hs, hpo]
      rw [hq]
      exact ⟨hc1, by intro j hj; simp at hj⟩
    · cases out with
      | null =>
        have hq : query_wikimedia_api env p cs =
            queryFetch env p (cacheKey env p) (migrateLegacy (cacheKey env p) cs) := by
          unfold query_wikimedia_api
          simp only [hs, hpo]
        rw [hq]
        refine ⟨(queryFetch_consistent env HInj HNet p _ hc1).1, ?_⟩
        intro j hj
        have h2 := (queryFetch_consistent env HInj HNet p _ hc1).2 j hj
        rw [hpo] at h2
        exact h2
      | bool b =>
        have hq : query_wikimedia_api env p cs =
            (.ok (Json.bool b), migrateLegacy (cacheKey env p) cs) := by
          unfold query_wikimedia_api
          simp only [hs, hpo]
        rw [hq]
        exact ⟨hc1, by intro j hj; simp at hj; rw [hj]⟩
      | num n =>
        have hq : query_wikimedia_api env p cs =
            (.ok (Json.num n), migrateLegacy (cacheKey env p) cs) := by
          unfold query_wikimedia_api
          simp only [hs, hpo]
        rw [hq]
        exact ⟨hc1, by intro j hj; simp at hj; rw [hj]⟩
      | str v =>
        have hq : query_wikimedia_api env p cs =
            (.ok (Json.str v), migrateLegacy (cacheKey env p) cs) := by
          unfold query_wikimedia_api
          simp only [hs, hpo]
        rw [hq]
        exact ⟨hc1, by intro j hj; simp at hj; rw [hj]⟩
      | arr xs =>
        have hq : query_wikimedia_api env p cs =
            (.ok (Json.arr xs), migrateLegacy (cacheKey env p) cs) := by
          unfold query_wikimedia_api
          simp only [hs, hpo]
        rw [hq]
        exact ⟨hc1, by intro j hj; simp at hj; rw [hj]⟩
      | obj fs =>
        have hq : query_wikimedia_api env p cs =
            (.ok (Json.obj fs), migrateLegacy (cacheKey env p) cs) := by
          unfold query_wikimedia_api
          simp only [hs, hpo]
        rw [hq]
        exact ⟨hc1, by intro j hj; simp at hj; rw [hj]⟩

/-! ### State shape of the two fetch wrappers -/

theorem fetch_members_state (env : Env) (c : String) (st : CrawlState) :
    (fetch_members env c st).2.cache = (query_wikimedia_api env (memberParams c) st.cache).2 ∧
    (fetch_members env c st).2.graph = st.graph ∧
    (fetch_members env c st).2.explored = st.explored ∧
    (fetch_members env c st).2.fetchLog = st.fetchLog ++ [c] := by
  unfold fetch_members
  repeat' split
  all_goals simp_all [apply_ite]

theorem fetch_members_ok (env : Env) (c : String) (st : CrawlState) (v : Json)
    (h : (fetch_members env c st).1 = .ok v) :
    ∃ out qv, (query_wikimedia_api env (memberParams c) st.cache).1 = .ok out ∧
      out.getKey "query" = .ok qv ∧ qv.getKey "categorymembers" = .ok v := by
  unfold fetch_members at h
  repeat' split at h
  all_goals simp at h
  · rename_i x3 out cs hq x2 bc hbc x1 qv hqv x0 cm hcm
    subst h
    exact ⟨out, qv, by rw [hq], hqv, hcm⟩
  · rename_i x4 out cs hq x3 bc2 hbc bc hne x1 qv hqv x0 cm hcm
    subst h
    exact ⟨out, qv, by rw [hq], hqv, hcm⟩

theorem fetch_members_members (env : Env) (HInj : Function.Injective env.h)
    (HNet : netRespects env) (c : String) (st : CrawlState)
    (hc : Consistent env st.cache) (v : Json) (ms : List Json)
    (hok : (fetch_members env c st).1 = .ok v) (hms : v.asArr = .ok ms) :
    apiMembers env c = some ms := by
  obtain ⟨out, qv, hq1, hqv, hcm⟩ := fetch_members_ok env c st v hok
  have hparse := (query_consistent env HInj HNet (memberParams c) st.cache hc).2 out hq1
  unfold apiMembers
  simp only [hparse, hqv, hcm, hms]

theorem fetch_content_state (env : Env) (names : List String) (st : CrawlState) :
    (fetch_content env names st).2 =
      { st with cache :=
          (query_wikimedia_api env (contentParams (pySortStrings names)) st.cache).2 } := by
  simp only [fetch_content]
  repeat' split
  all_goals simp_all

/-! ### Small helpers about the crawl state -/

theorem insertExplored_self (c : String) (l : List String) :
    c ∈ insertExplored c l := by
  unfold insertExplored
  by_cases h : c ∈ l <;> simp [h]

theorem insertExplored_mono {x : String} (c : String) (l : List String)
    (h : x ∈ l) : x ∈ insertExplored c l := by
  unfold insertExplored
  by_cases hc : c ∈ l <;> simp [hc, h]

theorem ensureNode_edges (name : String) (g : Graph) :
    (ensureNode name g).edges = g.edges := by
  unfold ensureNode
  split <;> rfl

theorem addNode_edges (name : String) (content : Json) (g : Graph) :
    (addNode name content g).edges = g.edges := by
  unfold addNode
  split <;> rfl

theorem addEdge_noselfloop {u v : String} {g : Graph} (huv : u ≠ v)
    (hg : NoSelfLoop g) : NoSelfLoop (addEdge u v g) := by
  intro x hx
  simp only [addEdge] at hx
  rw [ensureNode_edges, ensureNode_edges] at hx
  split at hx
  · exact hg x (by simpa [ensureNode_edges] using hx)
  · simp only [ensureNode_edges, List.mem_append, List.mem_singleton] at hx
    rcases hx with hx | hx
    · exact hg x hx
    · have h1 := (Prod.mk.injEq _ _ _ _).mp hx
      exact huv (h1.1.symm.trans h1.2)

theorem memberContent_title (contents m : Json) (tc : String × Json)
    (h : memberContent contents m = .ok tc) : memberTitleIs m tc.1 := by
  unfold memberContent at h
  simp only [bind, Except.bind, pure, Except.pure] at h
  repeat' split at h
  all_goals simp at h
  rename_i x0 t ht x1 s hs
  subst h
  exact ⟨t, ht, hs⟩

theorem mem_of_mem_split {α : Type} {m : α} {b : List α} {l : List α} {n : Nat}
    (hb : b ∈ split_in_batches l (n + 1)) (hm : m ∈ b) : m ∈ l := by
  have hfl := split_flatten_aux n l.length l le_rfl
  rw [← hfl]
  exact List.mem_flatten.mpr ⟨b, hb, hm⟩

/-! ### One-step equations for `run` -/

theorem run_nil (env : Env) (fuel : Nat) (st : CrawlState) :
    run env fuel [] st = (.ok (), st) := by
  cases fuel <;> rfl

theorem run_cat_explored (env : Env) (fuel : Nat) (c : String)
    (ts : List Phase) (st : CrawlState) (hce : c ∈ st.explored) :
    run env (fuel + 1) (.cat c :: ts) st = run env fuel ts st := by
  simp [run, hce]

theorem run_cat_step (env : Env) (fuel : Nat) (c : String)
    (ts : List Phase) (st : CrawlState) (hce : c ∉ st.explored) :
    run env (fuel + 1) (.cat c :: ts) st =
      match fetch_members env c st with
      | (.error e, st') => (.error e, st')
      | (.ok mj, st') =>
        match mj.asArr with
        | .error e => (.error e, st')
        | .ok members =>
          run env fuel (.batches c (split_in_batches members 50) :: ts) st' := by
  simp [run, hce]

theorem run_batches_nil (env : Env) (fuel : Nat) (c : String)
    (ts : List Phase) (st : CrawlState) :
    run env (fuel + 1) (.batches c [] :: ts) st = run env fuel ts st := rfl

theorem run_batches_cons (env : Env) (fuel : Nat) (c : String)
    (b : List Json) (bs : List (List Json)) (ts : List Phase) (st : CrawlState) :
    run env (fuel + 1) (.batches c (b :: bs) :: ts) st =
      match memberTitles b with
      | .error e => (.error e, st)
      | .ok titles =>
        match fetch_content env titles st with
        | (.error e, st') => (.error e, st')
        | (.ok contents, st') =>
          run env fuel (.members c contents b :: .batches c bs :: ts)
            { st' with explored := insertExplored c st'.explored } := rfl

theorem run_members_nil (env : Env) (fuel : Nat) (c : String) (ct : Json)
    (ts : List Phase) (st : CrawlState) :
    run env (fuel + 1) (.members c ct [] :: ts) st = run env fuel ts st := rfl

theorem run_members_cons (env : Env) (fuel : Nat) (c : String) (ct : Json)
    (m : Json) (ms : List Json) (ts : List Phase) (st : CrawlState) :
    run env (fuel + 1) (.members c ct (m :: ms) :: ts) st =
      match memberContent ct m with
      | .error e => (.error e, st)
      | .ok tc =>
        if pyStartsWith tc.1 "Category:" then
          run env fuel (.cat tc.1 :: .members c ct ms :: ts)
            { st with graph := addEdge c tc.1 (addNode tc.1 tc.2 st.graph) }
        else
          run env fuel (.members c ct ms :: ts)
            { st with graph := addEdge c tc.1 (addNode tc.1 tc.2 st.graph) } := rfl

/-! ### The crawl fetches a category with members at most once -/

theorem count_append_one (l : List String) (c n : String) :
    (l ++ [c]).count n = l.count n + (if c = n then 1 else 0) := by
  by_cases hcn : c = n
  · subst hcn
    simp [List.count_append]
  · simp [List.count_append, hcn, List.count_singleton']

theorem run_phi (env : Env) (HInj : Function.Injective env.h) (HNet : netRespects env)
    (n : String) (happ : apiMembers env n ≠ some ([] : List Json)) :
    ∀ fuel stack st, Consistent env st.cache → stackPhiOK n stack st →
      (run env fuel stack st).1 = .ok () →
      (run env fuel stack st).2.fetchLog.count n ≤ 1 := by
  intro fuel
  induction fuel with
  | zero =>
    intro stack st hc hphi hok
    cases stack with
    | nil => rw [run_nil]; exact hphi.1
    | cons t ts => simp [run] at hok
  | succ fuel ih =>
    intro stack st hc hphi hok
    cases stack with
    | nil => rw [run_nil]; exact hphi.1
    | cons t ts =>
      cases t with
      | cat c =>
        by_cases hce : c ∈ st.explored
        · rw [run_cat_explored env fuel c ts st hce] at hok ⊢
          refine ih ts st hc ⟨hphi.1, fun h1 => ?_⟩ hok
          rcases hphi.2 h1 with h | h
          · exact Or.inl h
          · exact h.elim
        · rcases hf : fetch_members env c st with ⟨r, st'⟩
          have h2 : (fetch_members env c st).2 = st' := by rw [hf]
          obtain ⟨hfc, hfg, hfe, hfl⟩ := fetch_members_state env c st
          rw [h2] at hfc hfg hfe hfl
          cases r with
          | error e =>
            have hstep : run env (fuel + 1) (.cat c :: ts) st = (.error e, st') := by
              rw [run_cat_step env fuel c ts st hce]
              simp [hf]
            rw [hstep] at hok
            simp at hok
          | ok mj =>
            rcases hA : mj.asArr with e | members
            · have hstep : run env (fuel + 1) (.cat c :: ts) st = (.error e, st') := by
                rw [run_cat_step env fuel c ts st hce]
                simp [hf, hA]
              rw [hstep] at hok
              simp at hok
            · have hstep : run env (fuel + 1) (.cat c :: ts) st =
                  run env fuel (.batches c (split_in_batches members 50) :: ts) st' := by
                rw [run_cat_step env fuel c ts st hce]
                simp [hf, hA]
              rw [hstep] at hok ⊢
              have hcons' : Consistent env st'.cache := by
                rw [hfc]
                exact (query_consistent env HInj HNet (memberParams c) st.cache hc).1
              refine ih _ _ hcons' ⟨?_, ?_⟩ hok
              · rw [hfl, count_append_one]
                by_cases hcn : c = n
                · have hc0 : st.fetchLog.count n = 0 := by
                    rcases Nat.lt_or_ge (st.fetchLog.count n) 1 with h | h
                    · omega
                    · have h1 : st.fetchLog.count n = 1 := le_antisymm hphi.1 h
                      rcases hphi.2 h1 with hmem | hfalse
                      · exact absurd (hcn ▸ hmem) hce
                      · exact hfalse.elim
                  simp [hc0, hcn]
                · simp [hcn]
                  exact hphi.1
              · intro h1
                rw [hfl, count_append_one] at h1
                by_cases hcn : c = n
                · have hmem : apiMembers env c = some members :=
                    fetch_members_members env HInj HNet c st hc mj members
                      (by rw [hf]) hA
                  have hne : members ≠ [] := by
                    intro hnil
                    rw [hnil, hcn] at hmem
                    exact happ hmem
                  have hsplit : split_in_batches members 50 ≠ [] :=
                    split_ne_nil members 49 hne
                  obtain ⟨b, bs, hbs⟩ := List.exists_cons_of_ne_nil hsplit
                  rw [hbs]
                  exact Or.inr hcn
                · simp [hcn] at h1
                  rcases hphi.2 h1 with hmem | hfalse
                  · exact Or.inl (by rw [hfe]; exact hmem)
                  · exact hfalse.elim
      | batches c bs =>
        cases bs with
        | nil =>
          rw [run_batches_nil] at hok ⊢
          refine ih ts st hc ⟨hphi.1, fun h1 => ?_⟩ hok
          rcases hphi.2 h1 with h | h
          · exact Or.inl h
          · exact h.elim
        | cons b bs =>
          rcases hT : memberTitles b with e | titles
          · have hstep : run env (fuel + 1) (.batches c (b :: bs) :: ts) st =
                (.error e, st) := by
              rw [run_batches_cons]
              simp [hT]
            rw [hstep] at hok
            simp at hok
          · rcases hF : fetch_content env titles st with ⟨r, st'⟩
            have h2 : (fetch_content env titles st).2 = st' := by rw [hF]
            have hstt := fetch_content_state env titles st
            rw [h2] at hstt
            cases r with
            | error e =>
              have hstep : run env (fuel + 1) (.batches c (b :: bs) :: ts) st =
                  (.error e, st') := by
                rw [run_batches_cons]
                simp [hT, hF]
              rw [hstep] at hok
              simp at hok
            | ok contents =>
              have hstep : run env (fuel + 1) (.batches c (b :: bs) :: ts) st =
                  run env fuel (.members c contents b :: .batches c bs :: ts)
                    { st' with explored := insertExplored c st'.explored } := by
                rw [run_batches_cons]
                simp [hT, hF]
              rw [hstep] at hok ⊢
              have hcons' : Consistent env st'.cache := by
                rw [hstt]
                exact (query_consistent env HInj HNet
                  (contentParams (pySortStrings titles)) st.cache hc).1
              refine ih _ _ hcons' ⟨?_, ?_⟩ hok
              · have hlg : st'.fetchLog = st.fetchLog := by rw [hstt]
                simpa [hlg] using hphi.1
              · intro h1
                have hlg : st'.fetchLog = st.fetchLog := by rw [hstt]
                rw [hlg] at h1
                have hexp : st'.explored = st.explored := by rw [hstt]
                rcases hphi.2 h1 with hmem | hcn
                · exact Or.inl (insertExplored_mono c _ (by rw [hexp]; exact hmem))
                · exact Or.inl (hcn ▸ insertExplored_self c st'.explored)
      | members c ct ms =>
        cases ms with
        | nil =>
          rw [run_members_nil] at hok ⊢
          refine ih ts st hc ⟨hphi.1, fun h1 => ?_⟩ hok
          rcases hphi.2 h1 with h | h
          · exact Or.inl h
          · exact h.elim
        | cons m rest =>
          rcases hM : memberContent ct m with e | tc
          · have hstep : run env (fuel + 1) (.members c ct (m :: rest) :: ts) st =
                (.error e, st) := by
              rw [run_members_cons]
              simp [hM]
            rw [hstep] at hok
            simp at hok
          · by_cases hpre : pyStartsWith tc.1 "Category:" = true
            · have hstep : run env (fuel + 1) (.members c ct (m :: rest) :: ts) st =
                  run env fuel (.cat tc.1 :: .members c ct rest :: ts)
                    { st with graph := addEdge c tc.1 (addNode tc.1 tc.2 st.graph) } := by
                rw [run_members_cons]
                simp [hM, hpre]
              rw [hstep] at hok ⊢
              refine ih _ _ hc ⟨hphi.1, fun h1 => ?_⟩ hok
              rcases hphi.2 h1 with h | h
              · exact Or.inl h
              · exact h.elim
            · have hstep : run env (fuel + 1) (.members c ct (m :: rest) :: ts) st =
                  run env fuel (.members c ct rest :: ts)
                    { st with graph := addEdge c tc.1 (addNode tc.1 tc.2 st.graph) } := by
                rw [run_members_cons]
                simp [hM, hpre]
              rw [hstep] at hok ⊢
              refine ih _ _ hc ⟨hphi.1, fun h1 => ?_⟩ hok
              rcases hphi.2 h1 with h | h
              · exact Or.inl h
              · exact h.elim

/-! ### The crawl adds no self-loop unless the API lists a category as
its own member -/

theorem run_noselfloop (env : Env) (HInj : Function.Injective env.h)
    (HNet : netRespects env) (hself : noSelfMembership env) :
    ∀ fuel stack st, Consistent env st.cache → stackTitlesOK stack →
      NoSelfLoop st.graph →
      (run env fuel stack st).1 = .ok () →
      NoSelfLoop (run env fuel stack st).2.graph := by
  intro fuel
  induction fuel with
  | zero =>
    intro stack st hc hT hg hok
    cases stack with
    | nil => rw [run_nil]; exact hg
    | cons t ts => simp [run] at hok
  | succ fuel ih =>
    intro stack st hc hT hg hok
    cases stack with
    | nil => rw [run_nil]; exact hg
    | cons t ts =>
      have hTtail : stackTitlesOK ts := fun t ht => hT t (List.mem_cons_of_mem _ ht)
      cases t with
      | cat c =>
        by_cases hce : c ∈ st.explored
        · rw [run_cat_explored env fuel c ts st hce] at hok ⊢
          exact ih ts st hc hTtail hg hok
        · rcases hf : fetch_members env c st with ⟨r, st'⟩
          have h2 : (fetch_members env c st).2 = st' := by rw [hf]
          obtain ⟨hfc, hfg, hfe, hfl⟩ := fetch_members_state env c st
          rw [h2] at hfc hfg hfe hfl
          cases r with
          | error e =>
            have hstep : run env (fuel + 1) (.cat c :: ts) st = (.error e, st') := by
              rw [run_cat_step env fuel c ts st hce]
              simp [hf]
            rw [hstep] at hok
            simp at hok
          | ok mj =>
            rcases hA : mj.asArr with e | members
            · have hstep : run env (fuel + 1) (.cat c :: ts) st = (.error e, st') := by
                rw [run_cat_step env fuel c ts st hce]
                simp [hf, hA]
              rw [hstep] at hok
              simp at hok
            · have hstep : run env (fuel + 1) (.cat c :: ts) st =
                  run env fuel (.batches c (split_in_batches members 50) :: ts) st' := by
                rw [run_cat_step env fuel c ts st hce]
                simp [hf, hA]
              rw [hstep] at hok ⊢
              have hcons' : Consistent env st'.cache := by
                rw [hfc]
                exact (query_consistent env HInj HNet (memberParams c) st.cache hc).1
              have hmem : apiMembers env c = some members :=
                fetch_members_members env HInj HNet c st hc mj members (by rw [hf]) hA
              refine ih _ _ hcons' ?_ (by rw [hfg]; exact hg) hok
              intro t ht
              rcases List.mem_cons.mp ht with rfl | ht
              · intro b hb m hm s hs
                exact hself c members hmem m
                  (mem_of_mem_split (n := 49) hb hm) s hs
              · exact hT t (List.mem_cons_of_mem _ ht)
      | batches c bs =>
        cases bs with
        | nil =>
          rw [run_batches_nil] at hok ⊢
          exact ih ts st hc hTtail hg hok
        | cons b bs =>
          rcases hT2 : memberTitles b with e | titles
          · have hstep : run env (fuel + 1) (.batches c (b :: bs) :: ts) st =
                (.error e, st) := by
              rw [run_batches_cons]
              simp [hT2]
            rw [hstep] at hok
            simp at hok
          · rcases hF : fetch_content env titles st with ⟨r, st'⟩
            have h2 : (fetch_content env titles st).2 = st' := by rw [hF]
            have hstt := fetch_content_state env titles st
            rw [h2] at hstt
            cases r with
            | error e =>
              have hstep : run env (fuel + 1) (.batches c (b :: bs) :: ts) st =
                  (.error e, st') := by
                rw [run_batches_cons]
                simp [hT2, hF]
              rw [hstep] at hok
              simp at hok
            | ok contents =>
              have hstep : run env (fuel + 1) (.batches c (b :: bs) :: ts) st =
                  run env fuel (.members c contents b :: .batches c bs :: ts)
                    { st' with explored := insertExplored c st'.explored } := by
                rw [run_batches_cons]
                simp [hT2, hF]
              rw [hstep] at hok ⊢
              have hcons' : Consistent env st'.cache := by
                rw [hstt]
                exact (query_consistent env HInj HNet
                  (contentParams (pySortStrings titles)) st.cache hc).1
              have hhead := hT (Phase.batches c (b :: bs)) (List.mem_cons_self _ _)
              refine ih _ _ hcons' ?_ ?_ hok
              · intro t ht
                rcases List.mem_cons.mp ht with rfl | ht
                · exact fun m hm s hs => hhead b (List.mem_cons_self _ _) m hm s hs
                · rcases List.mem_cons.mp ht with rfl | ht
                  · exact fun b' hb' m hm s hs =>
                      hhead b' (List.mem_cons_of_mem _ hb') m hm s hs
                  · exact hT t (List.mem_cons_of_mem _ ht)
              · have hgr : st'.graph = st.graph := by rw [hstt]
                simpa [hgr] using hg
      | members c ct ms =>
        cases ms with
        | nil =>
          rw [run_members_nil] at hok ⊢
          exact ih ts st hc hTtail hg hok
        | cons m rest =>
          rcases hM : memberContent ct m with e | tc
          · have hstep : run env (fuel + 1) (.members c ct (m :: rest) :: ts) st =
                (.error e, st) := by
              rw [run_members_cons]
              simp [hM]
            rw [hstep] at hok
            simp at hok
          · have hhead := hT (Phase.members c ct (m :: rest)) (List.mem_cons_self _ _)
            have htc : tc.1 ≠ c :=
              hhead m (List.mem_cons_self _ _) tc.1 (memberContent_title ct m tc hM)
            have hg2 : NoSelfLoop (addEdge c tc.1 (addNode tc.1 tc.2 st.graph)) := by
              refine addEdge_noselfloop (fun hcc => htc hcc.symm) ?_
              intro x hx
              rw [addNode_edges] at hx
              exact hg x hx
            have hTrest : stackTitlesOK (Phase.members c ct rest :: ts) := by
              intro t ht
              rcases List.mem_cons.mp ht with rfl | ht
              · exact fun m' hm' s hs => hhead m' (List.mem_cons_of_mem _ hm') s hs
              · exact hT t (List.mem_cons_of_mem _ ht)
            by_cases hpre : pyStartsWith tc.1 "Category:" = true
            · have hstep : run env (fuel + 1) (.members c ct (m :: rest) :: ts) st =
                  run env fuel (.cat tc.1 :: .members c ct rest :: ts)
                    { st with graph := addEdge c tc.1 (addNode tc.1 tc.2 st.graph) } := by
                rw [run_members_cons]
                simp [hM, hpre]
              rw [hstep] at hok ⊢
              refine ih _ _ hc ?_ hg2 hok
              intro t ht
              rcases List.mem_cons.mp ht with rfl | ht
              · trivial
              · exact hTrest t ht
            · have hstep : run env (fuel + 1) (.members c ct (m :: rest) :: ts) st =
                  run env fuel (.members c ct rest :: ts)
                    { st with graph := addEdge c tc.1 (addNode tc.1 tc.2 st.graph) } := by
                rw [run_members_cons]
                simp [hM, hpre]
              rw [hstep] at hok ⊢
              exact ih _ _ hc hTrest hg2 hok

/-! ### Claim C2: no category explored twice (corrected) -/

set_option maxRecDepth 40000 in
set_option maxHeartbeats 800000 in
/-- C2 counterexample.  The claim "the number of membership-fetch calls
issued for a name is exactly 1" is false: on the mocked API `envD`
(`Category:A` → {`Category:B`, `Category:C`}, `Category:C` →
{`Category:B`}, `Category:B` → ∅) the crawl succeeds but issues the
membership fetch for `Category:B` twice — a category with an empty member
list never runs its batch loop, so it is never added to
`explored_categories`, and the second parent re-fetches it. -/
theorem explore_refetches_empty_category :
    (scrape envD 40 "Category:A" [] emptyCache).1.isOk = true ∧
    (scrape envD 40 "Category:A" [] emptyCache).2.fetchLog =
      ["Category:A", "Category:B", "Category:C", "Category:B"] ∧
    (scrape envD 40 "Category:A" [] emptyCache).2.fetchLog.count "Category:B" = 2 := by
  refine ⟨by decide, ?_, ?_⟩
  · decide
  · have h : (scrape envD 40 "Category:A" [] emptyCache).2.fetchLog =
        ["Category:A", "Category:B", "Category:C", "Category:B"] := by decide
    rw [h]
    decide

/-- C2 (amended).  (1) A category already in `explored_categories` makes
`explore_category` return immediately as a no-op.  (2) For every crawl —
with a collision-free digest, an insertion-order-insensitive network and
a cache consistent with it — a category whose membership response carries
a *non-empty* member list is membership-fetched at most once, even when
reachable via multiple parents.  (The original "exactly 1 for every
name" fails for member-less categories, which are never marked explored
and are re-fetched on each encounter; see the counterexample.) -/
theorem crawl_fetch_at_most_once :
    (∀ (env : Env) (fuel : Nat) (c : String) (st : CrawlState),
      c ∈ st.explored → explore_category env (fuel + 1) c st = (.ok (), st)) ∧
    (∀ (env : Env) (fuel : Nat) (root n : String)
       (explored0 : List String) (cache0 : CacheState),
      Function.Injective env.h → netRespects env →
      Consistent env cache0 →
      apiMembers env n ≠ some [] →
      (scrape env fuel root explored0 cache0).1.isOk = true →
      (scrape env fuel root explored0 cache0).2.fetchLog.count n ≤ 1) := by
  constructor
  · intro env fuel c st hce
    unfold explore_category
    rw [run_cat_explored env fuel c [] st hce, run_nil]
  · intro env fuel root n explored0 cache0 HInj HNet hcons happ hok
    rcases hE : explore_category env fuel root ⟨cache0, ⟨[], []⟩, explored0, [], 0⟩
      with ⟨r, stf⟩
    have hs2 : (scrape env fuel root explored0 cache0).2 = stf := by
      simp only [scrape]
      rw [hE]
      cases r <;> rfl
    have hr : r = .ok () := by
      simp only [scrape] at hok
      rw [hE] at hok
      cases r with
      | ok u => rfl
      | error e => simp [Except.isOk, Except.toBool] at hok
    have hrun : run env fuel [.cat root] ⟨cache0, ⟨[], []⟩, explored0, [], 0⟩ = (r, stf) := hE
    rw [hs2]
    have hphi := run_phi env HInj HNet n happ fuel [.cat root]
      ⟨cache0, ⟨[], []⟩, explored0, [], 0⟩ hcons
      ⟨by simp, by simp⟩ (by rw [hrun, hr])
    rw [hrun] at hphi
    exact hphi

set_option maxRecDepth 40000 in
set_option maxHeartbeats 800000 in
/-- Witness for C2 (amended) on the mocked API `envT`. -/
theorem crawl_fetch_at_most_once_witness :
    (scrape envT 40 "Category:T" [] emptyCache).2.fetchLog.count "Category:T" ≤ 1 :=
  crawl_fetch_at_most_once.2 envT 40 "Category:T" "Category:T" [] emptyCache
    (fun _ _ hab => hab)
    (fun p q hpq => by simp only [envT, mkMockEnv]; rw [hpq])
    ⟨fun _ => Or.inl rfl, fun _ => Or.inl rfl⟩
    (by
      have hval : apiMembers envT "Category:T" =
          some [.obj [("pageid", .num 1), ("title", .str "fileX")]] := rfl
      rw [hval]
      simp)
    (by decide)

/-! ### Claim C7: no self-loops (corrected) -/

set_option maxRecDepth 40000 in
set_option maxHeartbeats 800000 in
/-- C7 counterexample.  "The produced directed graph contains no edge
from a node to itself" is false as stated: on the mocked API `envS`,
whose `Category:A` lists itself as a member (MediaWiki permits
self-categorization), the crawl succeeds and `add_edge` runs before the
recursion's entry check, so the graph contains the self-loop edge
`Category:A → Category:A` (the recursion itself is blocked). -/
theorem crawl_self_loop_possible :
    (scrape envS 40 "Category:A" [] emptyCache).1.isOk = true ∧
    ("Category:A", "Category:A") ∈
      resultEdges (scrape envS 40 "Category:A" [] emptyCache).1 := by
  exact ⟨by decide, by decide⟩

set_option maxRecDepth 40000 in
set_option maxHeartbeats 1000000 in
/-- C7 (amended).  (1) For every crawl over an API in which no category
lists itself as a member (with a collision-free digest, an
insertion-order-insensitive network and a consistent cache), the
produced graph contains no self-loop — a category is never fetched as a
child of itself.  (2) Multi-parent categories are representable: in the
`envD` crawl the name `Category:B` has incoming edges from the two
distinct parents `Category:A` and `Category:C`. -/
theorem no_self_loops_unless_self_membership :
    (∀ (env : Env) (fuel : Nat) (root : String) (explored0 : List String)
       (cache0 : CacheState) (g : Graph),
      Function.Injective env.h → netRespects env → noSelfMembership env →
      Consistent env cache0 →
      (scrape env fuel root explored0 cache0).1 = .ok g →
      NoSelfLoop g) ∧
    (("Category:A", "Category:B") ∈
        resultEdges (scrape envD 40 "Category:A" [] emptyCache).1 ∧
      ("Category:C", "Category:B") ∈
        resultEdges (scrape envD 40 "Category:A" [] emptyCache).1 ∧
      "Category:A" ≠ "Category:C") := by
  constructor
  · intro env fuel root explored0 cache0 g HInj HNet hself hcons hsc
    rcases hE : explore_category env fuel root ⟨cache0, ⟨[], []⟩, explored0, [], 0⟩
      with ⟨r, stf⟩
    have hrun : run env fuel [.cat root] ⟨cache0, ⟨[], []⟩, explored0, [], 0⟩ =
      (r, stf) := hE
    simp only [scrape] at hsc
    rw [hE] at hsc
    cases r with
    | error e => simp at hsc
    | ok u =>
      simp only [Except.ok.injEq] at hsc
      have hns := run_noselfloop env HInj HNet hself fuel [.cat root]
        ⟨cache0, ⟨[], []⟩, explored0, [], 0⟩ hcons
        (by intro t ht; rcases List.mem_cons.mp ht with rfl | ht
            · trivial
            · simp at ht)
        (by intro x hx; simp at hx)
        (by rw [hrun])
      rw [hrun] at hns
      rw [← hsc]
      exact hns
  · exact ⟨by decide, by decide, by decide⟩

set_option maxRecDepth 40000 in
set_option maxHeartbeats 1000000 in
/-- Witness for C7 (amended) on the mocked API `envT`, whose only listed
member (`fileX`) is not the category it belongs to. -/
theorem no_self_loops_unless_self_membership_witness :
    ∃ g, (scrape envT 40 "Category:T" [] emptyCache).1 = .ok g ∧ NoSelfLoop g := by
  rcases hE : (scrape envT 40 "Category:T" [] emptyCache).1 with e | g
  · have hok : (scrape envT 40 "Category:T" [] emptyCache).1.isOk = true := by decide
    rw [hE] at hok
    simp [Except.isOk, Except.toBool] at hok
  · refine ⟨g, rfl, no_self_loops_unless_self_membership.1 envT 40 "Category:T" []
      emptyCache g (fun _ _ hab => hab)
      (fun p q hpq => by simp only [envT, mkMockEnv]; rw [hpq]) ?_
      ⟨fun _ => Or.inl rfl, fun _ => Or.inl rfl⟩ hE⟩
    intro c ms hmem m hm s hs hsc
    by_cases h1 : canonicalJson (memberParams c) =
        canonicalJson (memberParams "Category:T")
    · have hms : apiMembers envT c =
          some [.obj [("pageid", .num 1), ("title", .str "fileX")]] := by
        simp only [apiMembers, envT, mkMockEnv]
        rw [h1]
        rfl
      rw [hms] at hmem
      have hms2 := Option.some.inj hmem
      rw [← hms2] at hm
      simp only [List.mem_singleton] at hm
      subst hm
      obtain ⟨j, hj1, hj2⟩ := hs
      have hjv : j = .str "fileX" := by
        have hrfl : Json.getKey (.obj [("pageid", .num 1), ("title", .str "fileX")])
            "title" = .ok (.str "fileX") := rfl
        rw [hrfl] at hj1
        exact (Except.ok.inj hj1).symm
      subst hjv
      have hsv : s = "fileX" := by
        have hrfl : Json.asStr (.str "fileX") = .ok "fileX" := rfl
        rw [hrfl] at hj2
        exact (Except.ok.inj hj2).symm
      rw [hsv] at hsc
      rw [← hsc] at h1
      exact absurd h1 (by decide)
    · by_cases h2 : canonicalJson (memberParams c) =
          canonicalJson (contentParams ["fileX"])
      · have hnone : apiMembers envT c = none := by
          simp only [apiMembers, envT, mkMockEnv, if_neg h1, if_pos h2]
          rfl
        rw [hnone] at hmem
        exact Option.noConfusion hmem
      · have hnone : apiMembers envT c = none := by
          simp only [apiMembers, envT, mkMockEnv, if_neg h1, if_neg h2]
          rfl
        rw [hnone] at hmem
        exact Option.noConfusion hmem

/-! ### Claim C6: end-to-end crawl on the mocked two-level API -/

set_option maxRecDepth 40000 in
set_option maxHeartbeats 1000000 in
/-- C6.  On the deterministic mocked API `env6` — root `Category:A` has
members `Category:B` (a category) and `file1` (not a category), and
`Category:B` has member `file2` — the crawl terminates successfully with
node set `{Category:A, Category:B, file1, file2}` and edge set
`{Category:A → Category:B, Category:A → file1, Category:B → file2}`,
and the membership fetch for each of `Category:A` and `Category:B` is
issued exactly once (no revisits). -/
theorem crawl_mock_end_to_end :
    (scrape env6 40 "Category:A" [] emptyCache).1.isOk = true ∧
    (resultNodeNames (scrape env6 40 "Category:A" [] emptyCache).1).Perm
      ["Category:A", "Category:B", "file1", "file2"] ∧
    (resultEdges (scrape env6 40 "Category:A" [] emptyCache).1).Perm
      [("Category:A", "Category:B"), ("Category:A", "file1"),
       ("Category:B", "file2")] ∧
    (scrape env6 40 "Category:A" [] emptyCache).2.fetchLog.count "Category:A" = 1 ∧
    (scrape env6 40 "Category:A" [] emptyCache).2.fetchLog.count "Category:B" = 1 := by
  exact ⟨by decide, by decide, by decide, by decide, by decide⟩

end WikiCategoryTree
